import Mathlib

/-!
Verification of the bundle-partitioning build core in
`packages/remix-dev/vite/build.ts`.

Embedding conventions:
* JavaScript objects and `Map`s are modelled as insertion-ordered
  association lists (`List (String × _)`); object key iteration is
  modelled as insertion order (route ids are non-integer strings).
* The unbounded `while` loop of `getRouteMatches` is modelled with an
  explicit fuel parameter; a `none` result models non-termination
  (the code does not defend against cyclic manifests).
* Thrown exceptions (`invariant`) are modelled with `Except String`.
* Node's posix path primitives (`path.join`, `path.relative`,
  `path.isAbsolute`), external collaborators of this module, are
  modelled on slash-separated segment lists; inputs to
  `pathRelative` are assumed to be absolute paths, as they are at the
  call site (both directories come from a resolved configuration).
* The asynchronous orchestrator `build` is modelled as a function from
  outcomes of the external build operations to the list of operations
  it invokes (its trace) together with its reported result;
  `Promise.all` of a list of settled outcomes is modelled as
  `promiseAll`, which rejects with the first rejection.
-/

/-- One route of the route manifest (`ConfigRoute`): a unique id, an
optional parent id (`undefined` for root-level routes), and the rest of
the route record treated as opaque payload (`file`). -/
structure ConfigRoute where
  id : String
  parentId : Option String
  file : String
deriving DecidableEq, Repr

/-- A route manifest: a mapping from route id to route, modelled as an
insertion-ordered association list. -/
abbrev RouteManifest := List (String × ConfigRoute)

/-- Property lookup `routes[id]` on the manifest object. -/
def lookupRoute (routes : RouteManifest) (id : String) : Option ConfigRoute :=
  (routes.find? (fun e => e.1 == id)).map Prod.snd

/-- Embedding of `getLeafRoutes`: collect every id that appears as some
route's `parentId` (the JS `Set` is modelled as a list queried with
`contains`), then return, in manifest insertion order, the routes whose
key is not in that set. -/
def getLeafRoutes (routes : RouteManifest) : List ConfigRoute :=
  let parentIds := routes.filterMap (fun e => e.2.parentId)
  (routes.filter (fun e => !(parentIds.contains e.1))).map Prod.snd

/-- Embedding of the `while (currentRouteId)` loop of `getRouteMatches`.
The JS truthiness test makes both `undefined` and the empty string
terminate the walk, so the loop state is a `String` with `parentId`
defaulted to `""`. Each iteration asserts (`invariant`) that the current
id is present, pushes the found route, and moves to its parent. `fuel`
bounds the number of steps; `none` models a non-terminating walk. -/
def getRouteMatchesAux (routes : RouteManifest) :
    Nat → String → List ConfigRoute → Option (Except String (List ConfigRoute))
  | 0, _, _ => none
  | fuel + 1, currentRouteId, result =>
    if currentRouteId = "" then some (.ok result.reverse)
    else
      match lookupRoute routes currentRouteId with
      | none => some (.error ("Missing route for " ++ currentRouteId))
      | some r => getRouteMatchesAux routes fuel (r.parentId.getD "") (result ++ [r])

/-- Embedding of `getRouteMatches`: walk `parentId` links from `routeId`,
collecting visited routes, and return them reversed (root-first). -/
def getRouteMatches (routes : RouteManifest) (fuel : Nat) (routeId : String) :
    Option (Except String (List ConfigRoute)) :=
  getRouteMatchesAux routes fuel routeId []

/-- Model of one step of posix path normalization over a segment stack
(Node's `path.posix` normalization, used by `path.join`): empty and `.`
segments are dropped, `..` pops a real segment, and leading `..`
segments are kept for relative paths and dropped for absolute ones. -/
def normStep (isAbs : Bool) (stack : List String) (seg : String) : List String :=
  if seg = "" || seg = "." then stack
  else if seg = ".." then
    match stack with
    | [] => if isAbs then [] else [".."]
    | top :: rest => if top = ".." then seg :: top :: rest else rest
  else seg :: stack

/-- Split on `/` (the behavior of `splitOn "/"`), written by structural
recursion on the character list so that it evaluates inside the
kernel. -/
def splitSegsAux : List Char → List Char → List String
  | [], cur => [String.mk cur.reverse]
  | c :: cs, cur =>
    if c = '/' then String.mk cur.reverse :: splitSegsAux cs []
    else splitSegsAux cs (c :: cur)

/-- Slash-separated segments of a path string. -/
def splitSegs (p : String) : List String :=
  splitSegsAux p.data []

/-- Join segments with `/` (the behavior of `intercalate "/"`), written
by structural recursion so that it evaluates inside the kernel. -/
def joinSegs : List String → String
  | [] => ""
  | [s] => s
  | s :: rest => s ++ "/" ++ joinSegs rest

/-- String prefix test (the behavior of `String.startsWith`), modelled
on the character lists. -/
def strStartsWith (s pre : String) : Bool :=
  pre.data.isPrefixOf s.data

/-- Normalized segment list of a path (segments in order). -/
def pathSegments (isAbs : Bool) (p : String) : List String :=
  ((splitSegs p).foldl (normStep isAbs) []).reverse

/-- Model of Node's `path.posix.isAbsolute`. -/
def pathIsAbsolute (p : String) : Bool :=
  strStartsWith p "/"

/-- Model of Node's `path.posix.join` on two arguments: concatenate with
a slash and normalize (trailing-slash preservation is irrelevant here
and not modelled). -/
def pathJoin (a b : String) : String :=
  let joined := if a = "" then b else if b = "" then a else a ++ "/" ++ b
  let isAbs := pathIsAbsolute joined
  let body := joinSegs (pathSegments isAbs joined)
  if isAbs then "/" ++ body
  else if body = "" then "." else body

/-- Length of the common prefix of two segment lists. -/
def commonPrefixLen : List String → List String → Nat
  | a :: as, b :: bs => if a = b then commonPrefixLen as bs + 1 else 0
  | _, _ => 0

/-- Model of Node's `path.posix.relative` for absolute arguments:
normalize both, drop the common prefix, and climb out of the remainder
of `fromP` with `..` segments before descending into `toP`. -/
def pathRelative (fromP toP : String) : String :=
  let f := pathSegments true fromP
  let t := pathSegments true toP
  let c := commonPrefixLen f t
  joinSegs (List.replicate (f.length - c) ".." ++ t.drop c)

/-- Classifier argument object `{ route, matches }` passed to the
user-supplied `serverBundleDirectory` function. -/
structure ServerBundleArgs where
  route : ConfigRoute
  routeMatches : List ConfigRoute

/-- One unit of server build work (`ServerBuildConfig`): the subset of
the manifest relevant to this bundle and its output directory. -/
structure ServerBuildConfig where
  routes : List (String × ConfigRoute)
  serverBuildDirectory : String
deriving DecidableEq, Repr

/-- Resolved plugin configuration consumed by the build core: the route
manifest, the default server output directory, the optional
classification function, and the project root. -/
structure ResolvedRemixVitePluginConfig where
  routes : RouteManifest
  serverBuildDirectory : String
  serverBundleDirectory : Option (ServerBundleArgs → String)
  rootDirectory : String

/-- JavaScript object property assignment `obj[k] = v`: an existing key
keeps its position and gets the new value, a new key is appended. -/
def objInsert (obj : List (String × ConfigRoute)) (k : String) (v : ConfigRoute) :
    List (String × ConfigRoute) :=
  if obj.any (fun e => e.1 == k) then
    obj.map (fun e => if e.1 == k then (k, v) else e)
  else obj ++ [(k, v)]

/-- The inner loop `for (let match of matches) routes[match.id] = match`
of `getServerBundles`. -/
def mergeMatches (rs : List (String × ConfigRoute)) (routeMatches : List ConfigRoute) :
    List (String × ConfigRoute) :=
  routeMatches.foldl (fun acc mt => objInsert acc mt.id mt) rs

/-- One iteration of the `getServerBundles` leaf loop on the
`serverBundles` map (modelled as an insertion-ordered association
list, matching JS `Map` semantics): look up or create the
`ServerBuildConfig` for the bundle key, then merge the match chain into
its `routes` object. -/
def addMatches (bundles : List (String × ServerBuildConfig)) (key : String)
    (routeMatches : List ConfigRoute) : List (String × ServerBuildConfig) :=
  if bundles.any (fun e => e.1 == key) then
    bundles.map (fun e =>
      if e.1 == key then (e.1, ⟨mergeMatches e.2.routes routeMatches, e.2.serverBuildDirectory⟩)
      else e)
  else bundles ++ [(key, ⟨mergeMatches [] routeMatches, key⟩)]

/-- The leaf loop of `getServerBundles`, threading the walk's possible
failure (`Except`) and possible non-termination (`Option`). -/
def getServerBundlesGo (routes : RouteManifest) (serverBuildDirectory : String)
    (getDir : ServerBundleArgs → String) (fuel : Nat) :
    List ConfigRoute → List (String × ServerBuildConfig) →
    Option (Except String (List (String × ServerBuildConfig)))
  | [], bundles => some (.ok bundles)
  | route :: rest, bundles =>
    match getRouteMatches routes fuel route.id with
    | none => none
    | some (.error e) => some (.error e)
    | some (.ok routeMatches) =>
      getServerBundlesGo routes serverBuildDirectory getDir fuel rest
        (addMatches bundles (pathJoin serverBuildDirectory (getDir ⟨route, routeMatches⟩)) routeMatches)

/-- Embedding of `getServerBundles`: with no classification function,
a single bundle holding the whole manifest; otherwise group each leaf
route's match chain into the bundle keyed by
`path.join(serverBuildDirectory, getServerBundleDirectory({route, routeMatches}))`
and return the bundles in key first-occurrence order
(`Array.from(map.values())`). -/
def getServerBundles (config : ResolvedRemixVitePluginConfig) (fuel : Nat) :
    Option (Except String (List ServerBuildConfig)) :=
  match config.serverBundleDirectory with
  | none => some (.ok [⟨config.routes, config.serverBuildDirectory⟩])
  | some getDir =>
    match getServerBundlesGo config.routes config.serverBuildDirectory getDir fuel
        (getLeafRoutes config.routes) [] with
    | none => none
    | some (.error e) => some (.error e)
    | some (.ok bundles) => some (.ok (bundles.map Prod.snd))

/-- The `isWithinRoot` predicate of `cleanServerBuildDirectory`: the
relative path from the project root to the server build directory
neither starts with the string `".."` nor is absolute. -/
def isWithinRoot (rootDirectory serverBuildDirectory : String) : Bool :=
  let relativePath := pathRelative rootDirectory serverBuildDirectory
  !(strStartsWith relativePath "..") && !(pathIsAbsolute relativePath)

/-- Decision of `cleanServerBuildDirectory`: delete when
`viteConfig.build.emptyOutDir ?? isWithinRoot()` holds (`??` is nullish
coalescing, modelled by `Option.getD`). -/
def shouldCleanServerBuildDirectory (emptyOutDir : Option Bool)
    (rootDirectory serverBuildDirectory : String) : Bool :=
  emptyOutDir.getD (isWithinRoot rootDirectory serverBuildDirectory)

/-- External build operations invoked by the orchestrator, recorded in
its trace: the recursive removal performed by
`cleanServerBuildDirectory`, the client `viteBuild()`, and one server
`viteBuild(serverBuildConfig)` per bundle. -/
inductive BuildOp where
  | clean : String → BuildOp
  | clientBuild : BuildOp
  | serverBuild : ServerBuildConfig → BuildOp
deriving DecidableEq, Repr

/-- Outcomes of the external operations: what `fse.remove`, the client
build and each server bundle build would do when invoked. -/
structure BuildEnv where
  cleanOutcome : Except String Unit
  clientOutcome : Except String Unit
  serverOutcome : ServerBuildConfig → Except String Unit

/-- Whether an outcome is a rejection. -/
def isErr : Except String Unit → Bool
  | .error _ => true
  | .ok _ => false

/-- Model of `Promise.all` over a list of settled outcomes: fulfilled
when all are, otherwise rejected with the first rejection. -/
def promiseAll (rs : List (Except String Unit)) : Except String Unit :=
  rs.foldl (fun acc r => match acc with | .error e => .error e | .ok _ => r) (.ok ())

/-- Whether an operation is a server bundle build. -/
def isServerOp : BuildOp → Bool
  | .serverBuild _ => true
  | _ => false

/-- Embedding of the orchestrator `build`: phase 1 runs the output
directory guard (and the recursive removal when authorized), phase 2
runs the client build, phase 3 computes the server bundles and launches
one server build per bundle via `Promise.all`. Each `await` propagates
a rejection, aborting the later phases. The result pairs the trace of
invoked operations with the reported outcome (`none` models a
non-terminating match-chain walk). -/
def buildRun (emptyOutDir : Option Bool) (config : ResolvedRemixVitePluginConfig)
    (env : BuildEnv) (fuel : Nat) : List BuildOp × Option (Except String Unit) :=
  let doClean := shouldCleanServerBuildDirectory emptyOutDir
    config.rootDirectory config.serverBuildDirectory
  let cleanTrace := if doClean then [BuildOp.clean config.serverBuildDirectory] else []
  match (if doClean then env.cleanOutcome else .ok ()) with
  | .error e => (cleanTrace, some (.error e))
  | .ok _ =>
    match env.clientOutcome with
    | .error e => (cleanTrace ++ [BuildOp.clientBuild], some (.error e))
    | .ok _ =>
      match getServerBundles config fuel with
      | none => (cleanTrace ++ [BuildOp.clientBuild], none)
      | some (.error e) => (cleanTrace ++ [BuildOp.clientBuild], some (.error e))
      | some (.ok bundles) =>
        (cleanTrace ++ [BuildOp.clientBuild] ++ bundles.map BuildOp.serverBuild,
          some (promiseAll (bundles.map env.serverOutcome)))

/-- First rejection among a list of settled outcomes. -/
def firstError (rs : List (Except String Unit)) : Option String :=
  rs.findSome? (fun r => match r with | .error e => some e | .ok _ => none)

/-- First-occurrence deduplication: the key order of a JS `Map` under
repeated `set`. -/
def dedupFirst (l : List String) : List String :=
  l.foldl (fun acc k => if acc.contains k then acc else acc ++ [k]) []

/-- Bundle key of a leaf route together with its match chain: the
default output directory joined with the classifier's relative
directory. -/
def bundleKeyOf (serverBuildDirectory : String) (getDir : ServerBundleArgs → String)
    (p : ConfigRoute × List ConfigRoute) : String :=
  pathJoin serverBuildDirectory (getDir ⟨p.1, p.2⟩)

/-- Spec-side regrouping of leaf/match-chain pairs, following the
spec's words (ordered by first occurrence of each bundle key; each
bundle holds the merged match chains of the leaves classified to its
key), for comparison with the imperative `getServerBundles`. -/
def specAssign (serverBuildDirectory : String) (getDir : ServerBundleArgs → String)
    (pairs : List (ConfigRoute × List ConfigRoute)) : List ServerBuildConfig :=
  (dedupFirst (pairs.map (bundleKeyOf serverBuildDirectory getDir))).map (fun k =>
    ⟨(pairs.filter (fun p => bundleKeyOf serverBuildDirectory getDir p == k)).foldl
        (fun rs p => mergeMatches rs p.2) [], k⟩)

/-- The fold performed by the leaf loop of `getServerBundles` on the
bundle map, expressed on precomputed leaf/match-chain pairs. -/
def assignPairs (serverBuildDirectory : String) (getDir : ServerBundleArgs → String)
    (pairs : List (ConfigRoute × List ConfigRoute))
    (bundles : List (String × ServerBuildConfig)) : List (String × ServerBuildConfig) :=
  pairs.foldl (fun a p => addMatches a (bundleKeyOf serverBuildDirectory getDir p) p.2) bundles

/-- Match chain returned by a successful walk (defaults to `[]` on
failure; only used where success is separately known). -/
def chainList (routes : RouteManifest) (fuel : Nat) (routeId : String) : List ConfigRoute :=
  match getRouteMatches routes fuel routeId with
  | some (.ok l) => l
  | _ => []

/-- Specification of the parent walk: `VisitList m id v` holds when the
walk of `getRouteMatches` started at the non-empty id `id` visits
exactly the routes `v` (target first) and stops at a route whose parent
link is `undefined` or the empty string. -/
inductive VisitList (m : RouteManifest) : String → List ConfigRoute → Prop
  | last (id : String) (r : ConfigRoute) (hid : id ≠ "")
      (hlk : lookupRoute m id = some r) (hp : r.parentId.getD "" = "") :
      VisitList m id [r]
  | cons (id : String) (r : ConfigRoute) (p : String) (v : List ConfigRoute)
      (hid : id ≠ "") (hlk : lookupRoute m id = some r) (hp : r.parentId = some p)
      (hpne : p ≠ "") (tail : VisitList m p v) : VisitList m id (r :: v)

/-- Depth of a route: the number of parent links its walk follows, so
that the walk visits `n + 1` routes. -/
def RouteDepth (m : RouteManifest) (id : String) (n : Nat) : Prop :=
  ∃ v, VisitList m id v ∧ v.length = n + 1

/-- Specification of a failing walk: after following `k` resolvable
parent links from the non-empty id `id`, the walk reaches an id that is
absent from the manifest. -/
inductive HitsMissing (m : RouteManifest) : String → Nat → Prop
  | here (id : String) (hid : id ≠ "") (hlk : lookupRoute m id = none) :
      HitsMissing m id 0
  | there (id : String) (r : ConfigRoute) (p : String) (k : Nat) (hid : id ≠ "")
      (hlk : lookupRoute m id = some r) (hp : r.parentId = some p)
      (tail : HitsMissing m p k) : HitsMissing m id (k + 1)

/-- Spec-side guard predicate, following the spec's words for
comparison with the code's `isWithinRoot`: the output directory is
strictly inside the project root when the relative path from the root
to it does not start with a parent-traversal segment (a leading `..`
path component) and is not absolute. -/
def insideRootSpec (rootDirectory serverBuildDirectory : String) : Bool :=
  let rel := pathRelative rootDirectory serverBuildDirectory
  !(rel = ".." || strStartsWith rel "../" || pathIsAbsolute rel)

/-- Trace shape of the orchestrator: guard operations, then client
build operations, then server bundle build operations. -/
def phaseOrdered (t : List BuildOp) : Prop :=
  ∃ g c s, t = g ++ c ++ s ∧
    (∀ op ∈ g, ∃ d, op = BuildOp.clean d) ∧
    (∀ op ∈ c, op = BuildOp.clientBuild) ∧
    (∀ op ∈ s, ∃ b, op = BuildOp.serverBuild b)

/-- Example root route. -/
def rtRoot : ConfigRoute := ⟨"root", none, "root.tsx"⟩

/-- Example leaf route `a`, child of the root. -/
def rtA : ConfigRoute := ⟨"a", some "root", "a.tsx"⟩

/-- Example leaf route `b`, child of the root. -/
def rtB : ConfigRoute := ⟨"b", some "root", "b.tsx"⟩

/-- Example three-route manifest (a root with two leaf children). -/
def mabManifest : RouteManifest := [("root", rtRoot), ("a", rtA), ("b", rtB)]

/-- Configuration whose classifier sends each leaf to its own bundle. -/
def cfgPerLeaf : ResolvedRemixVitePluginConfig :=
  ⟨mabManifest, "build/server", some (fun args => args.route.id), "/proj"⟩

/-- Environment in which both per-leaf bundle builds fail with distinct
errors while everything earlier succeeds. -/
def envTwoFail : BuildEnv :=
  ⟨.ok (), .ok (), fun b =>
    if b.serverBuildDirectory = "build/server/a" then .error "bundle a failed"
    else .error "bundle b failed"⟩

/-- Server bundle produced for leaf `a` by `cfgPerLeaf`. -/
def bundleA : ServerBuildConfig := ⟨[("root", rtRoot), ("a", rtA)], "build/server/a"⟩

/-- Server bundle produced for leaf `b` by `cfgPerLeaf`. -/
def bundleB : ServerBuildConfig := ⟨[("root", rtRoot), ("b", rtB)], "build/server/b"⟩

/-- Single root-level route used by the escape example. -/
def rtSolo : ConfigRoute := ⟨"a", none, "a.tsx"⟩

/-- Configuration whose classifier returns `..`, a relative directory
escaping the default server output directory. -/
def cfgEscape : ResolvedRemixVitePluginConfig :=
  ⟨[("a", rtSolo)], "/proj/build/server", some (fun _ => ".."), "/proj"⟩

/-- Configuration whose classifier returns two distinct relative
directories that normalize to the same joined path. -/
def cfgCollide : ResolvedRemixVitePluginConfig :=
  ⟨mabManifest, "/proj/build/server",
    some (fun args => if args.route.id = "a" then "x" else "y/../x"), "/proj"⟩

/-- Environment in which every external operation succeeds. -/
def envAllOk : BuildEnv := ⟨.ok (), .ok (), fun _ => .ok ()⟩

/-- Environment in which the client build fails. -/
def envClientFail : BuildEnv := ⟨.ok (), .error "client build failed", fun _ => .ok ()⟩

/-- Manifest with a route whose `parentId` references an absent id. -/
def mGhost : RouteManifest := [("a", ⟨"a", some "ghost", "a.tsx"⟩)]

/-- Configuration over the corrupt manifest `mGhost`. -/
def cfgGhost : ResolvedRemixVitePluginConfig :=
  ⟨mGhost, "build/server", some (fun args => args.route.id), "/proj"⟩

/-- Manifest with a route whose `parentId` is the empty string. -/
def mEmptyParent : RouteManifest := [("a", ⟨"a", some "", "a.tsx"⟩)]

/-- Constant-classifier configuration over the example manifest. -/
def cfgShared : ResolvedRemixVitePluginConfig :=
  ⟨mabManifest, "build/server", some (fun _ => "shared"), "/proj"⟩

theorem contains_iff_mem {l : List String} {a : String} : l.contains a = true ↔ a ∈ l :=
  List.elem_iff

theorem lookupRoute_mem {m : RouteManifest} {id : String} {r : ConfigRoute}
    (h : lookupRoute m id = some r) : ∃ e ∈ m, e.1 = id ∧ e.2 = r := by
  unfold lookupRoute at h
  cases hf : m.find? (fun e => e.1 == id) with
  | none => rw [hf] at h; simp at h
  | some e =>
    rw [hf] at h
    simp only [Option.map_some', Option.some.injEq] at h
    have hm := List.mem_of_find?_eq_some hf
    have hp := List.find?_some hf
    rw [beq_iff_eq] at hp
    exact ⟨e, hm, hp, h⟩

theorem mem_lookupRoute {m : RouteManifest} (hnd : (m.map Prod.fst).Nodup)
    {id : String} {r : ConfigRoute} (h : (id, r) ∈ m) : lookupRoute m id = some r := by
  induction m with
  | nil => cases h
  | cons e tl ih =>
    rcases List.mem_cons.mp h with h | h
    · rw [← h]
      simp [lookupRoute, List.find?]
    · have hkey : e.1 ≠ id := by
        intro hk
        have : id ∈ tl.map Prod.fst := List.mem_map.mpr ⟨(id, r), h, rfl⟩
        rw [List.map_cons, List.nodup_cons] at hnd
        exact hnd.1 (hk ▸ this)
      have htl := ih (by rw [List.map_cons, List.nodup_cons] at hnd; exact hnd.2) h
      have hb : (e.1 == id) = false := beq_eq_false_iff_ne.mpr hkey
      unfold lookupRoute
      rw [List.find?_cons_of_neg _ (by simp [hb])]
      exact htl

theorem contains_parentIds {m : RouteManifest} {x : String} :
    (m.filterMap (fun e => e.2.parentId)).contains x = true ↔
      ∃ e ∈ m, e.2.parentId = some x := by
  rw [contains_iff_mem, List.mem_filterMap]

/-- C6: for every manifest whose entries carry their own key as `id`,
`getLeafRoutes` returns, in manifest insertion order, exactly the
routes whose id is never referenced as some route's `parentId` (and it
is a pure function of the manifest, being a Lean function). -/
theorem getLeafRoutes_exactly_nonparents (m : RouteManifest)
    (hids : ∀ e ∈ m, e.2.id = e.1) :
    getLeafRoutes m =
      (m.filter (fun e => m.all (fun e2 => e2.2.parentId != some e.2.id))).map Prod.snd := by
  unfold getLeafRoutes
  refine congrArg (List.map Prod.snd) (List.filter_congr ?_)
  intro e he
  rw [hids e he]
  by_cases hc : (m.filterMap (fun e => e.2.parentId)).contains e.1 = true
  · obtain ⟨e2, he2, hp⟩ := contains_parentIds.mp hc
    rw [hc, Bool.not_true]
    symm
    refine eq_false_of_ne_true ?_
    intro hall
    rw [List.all_eq_true] at hall
    have hbne := hall e2 he2
    rw [bne_iff_ne] at hbne
    exact hbne hp
  · rw [eq_false_of_ne_true hc, Bool.not_false]
    symm
    rw [List.all_eq_true]
    intro e2 he2
    rw [bne_iff_ne]
    intro hp
    exact hc (contains_parentIds.mpr ⟨e2, he2, hp⟩)

/-- C6 witness: the filter characterization evaluated on the example
manifest. -/
theorem getLeafRoutes_exactly_nonparents_witness :
    getLeafRoutes mabManifest =
      (mabManifest.filter
        (fun e => mabManifest.all (fun e2 => e2.2.parentId != some e.2.id))).map Prod.snd :=
  getLeafRoutes_exactly_nonparents mabManifest (by decide)

/-- C5 counterexample: with no explicit preference and output directory
`/a/..b` under root `/a` — a directory strictly inside the root whose
relative path `..b` does not start with a parent-traversal segment —
the guard does not delete, because the code tests the string prefix
`..` rather than a path segment. -/
theorem shouldClean_parent_prefix_cex :
    shouldCleanServerBuildDirectory none "/a" "/a/..b" = false ∧
      insideRootSpec "/a" "/a/..b" = true := by
  exact ⟨by decide, by decide⟩

/-- C5 amended: the guard deletes exactly when the preference is
explicitly `true`, or when it is unset and the relative path from the
project root neither starts with the two-character string `..` (so a
first segment merely beginning with two dots, such as `..b`, also
counts as outside) nor is absolute. -/
theorem shouldClean_characterization (emptyOutDir : Option Bool)
    (rootDirectory serverBuildDirectory : String) :
    shouldCleanServerBuildDirectory emptyOutDir rootDirectory serverBuildDirectory = true ↔
      (emptyOutDir = some true ∨
        (emptyOutDir = none ∧
          strStartsWith (pathRelative rootDirectory serverBuildDirectory) ".." = false ∧
          pathIsAbsolute (pathRelative rootDirectory serverBuildDirectory) = false)) := by
  cases emptyOutDir with
  | none =>
    simp only [shouldCleanServerBuildDirectory, isWithinRoot, Option.getD]
    cases h1 : strStartsWith (pathRelative rootDirectory serverBuildDirectory) ".." <;>
      cases h2 : pathIsAbsolute (pathRelative rootDirectory serverBuildDirectory) <;>
        simp [h1, h2]
  | some b => cases b <;> simp [shouldCleanServerBuildDirectory]

/-- C5 witness: the characterization applied to an in-root directory
with no explicit preference. -/
theorem shouldClean_characterization_witness :
    shouldCleanServerBuildDirectory none "/proj" "/proj/build/server" = true :=
  (shouldClean_characterization none "/proj" "/proj/build/server").mpr
    (Or.inr ⟨rfl, by decide, by decide⟩)

/-- C10: a route whose `parentId` is the empty string is treated as a
root: the walk started at its (non-empty) id pushes that route, then
the JS truthiness test on the empty string terminates the loop without
ever looking the empty string up, so the walk returns `[r]` with no
missing-route failure. -/
theorem getRouteMatches_empty_parent_is_root (m : RouteManifest) (id : String)
    (r : ConfigRoute) (fuel : Nat) (hid : id ≠ "")
    (hlk : lookupRoute m id = some r) (hp : r.parentId = some "") (hfuel : 2 ≤ fuel) :
    getRouteMatches m fuel id = some (.ok [r]) := by
  obtain ⟨f, rfl⟩ : ∃ f, fuel = f + 2 := ⟨fuel - 2, by omega⟩
  simp [getRouteMatches, getRouteMatchesAux, hid, hlk, hp]

/-- C10 witness: the empty-parent walk evaluated on a concrete
manifest whose sole route has `parentId = ""`. -/
theorem getRouteMatches_empty_parent_is_root_witness :
    getRouteMatches mEmptyParent 5 "a" = some (.ok [⟨"a", some "", "a.tsx"⟩]) :=
  getRouteMatches_empty_parent_is_root mEmptyParent "a" ⟨"a", some "", "a.tsx"⟩ 5
    (by decide) (by decide) rfl (by omega)

theorem foldl_error_absorb (rs : List (Except String Unit)) (e : String) :
    rs.foldl
      (fun acc r =>
        match acc with
        | Except.error e' => Except.error e'
        | Except.ok _ => r)
      (Except.error e) = Except.error e := by
  induction rs with
  | nil => rfl
  | cons r rs ih => exact ih

theorem promiseAll_eq_firstError (rs : List (Except String Unit)) :
    promiseAll rs =
      (match firstError rs with | some e => .error e | none => .ok ()) := by
  induction rs with
  | nil => rfl
  | cons r rs ih =>
    cases r with
    | error e =>
      have habs := foldl_error_absorb rs e
      simp only [promiseAll, List.foldl_cons] at habs ⊢
      rw [habs]
      rfl
    | ok u => cases u; exact ih

theorem phaseOrdered_clean (d : String) : phaseOrdered [BuildOp.clean d] := by
  refine ⟨[BuildOp.clean d], [], [], by simp, ?_, ?_, ?_⟩
  · intro op hop
    rw [List.mem_singleton] at hop
    exact ⟨d, hop⟩
  · intro op hop
    exact absurd hop (List.not_mem_nil _)
  · intro op hop
    exact absurd hop (List.not_mem_nil _)

theorem phaseOrdered_clean_client (d : String) :
    phaseOrdered [BuildOp.clean d, BuildOp.clientBuild] := by
  refine ⟨[BuildOp.clean d], [BuildOp.clientBuild], [], by simp, ?_, ?_, ?_⟩
  · intro op hop
    rw [List.mem_singleton] at hop
    exact ⟨d, hop⟩
  · intro op hop
    rw [List.mem_singleton] at hop
    exact hop
  · intro op hop
    exact absurd hop (List.not_mem_nil _)

theorem phaseOrdered_client : phaseOrdered [BuildOp.clientBuild] := by
  refine ⟨[], [BuildOp.clientBuild], [], by simp, ?_, ?_, ?_⟩
  · intro op hop
    exact absurd hop (List.not_mem_nil _)
  · intro op hop
    rw [List.mem_singleton] at hop
    exact hop
  · intro op hop
    exact absurd hop (List.not_mem_nil _)

theorem serverOps_map (bs : List ServerBuildConfig) :
    ∀ op ∈ bs.map BuildOp.serverBuild, ∃ b, op = BuildOp.serverBuild b := by
  intro op hop
  obtain ⟨b, _, rfl⟩ := List.mem_map.mp hop
  exact ⟨b, rfl⟩

theorem buildRun_phaseOrdered (emptyOutDir : Option Bool)
    (config : ResolvedRemixVitePluginConfig) (env : BuildEnv) (fuel : Nat) :
    phaseOrdered (buildRun emptyOutDir config env fuel).1 := by
  have hclean : ∀ op ∈ (if shouldCleanServerBuildDirectory emptyOutDir config.rootDirectory
      config.serverBuildDirectory then [BuildOp.clean config.serverBuildDirectory]
      else ([] : List BuildOp)), ∃ d, op = BuildOp.clean d := by
    intro op hop
    by_cases hdc : shouldCleanServerBuildDirectory emptyOutDir config.rootDirectory
        config.serverBuildDirectory = true
    · rw [if_pos hdc, List.mem_singleton] at hop
      exact ⟨config.serverBuildDirectory, hop⟩
    · rw [if_neg hdc] at hop
      exact absurd hop (List.not_mem_nil _)
  have hnils : ∀ op ∈ ([] : List BuildOp), ∃ b, op = BuildOp.serverBuild b :=
    fun op hop => absurd hop (List.not_mem_nil _)
  have hnilc : ∀ op ∈ ([] : List BuildOp), op = BuildOp.clientBuild :=
    fun op hop => absurd hop (List.not_mem_nil _)
  have hone : ∀ op ∈ [BuildOp.clientBuild], op = BuildOp.clientBuild :=
    fun op hop => List.mem_singleton.mp hop
  cases hco : (if shouldCleanServerBuildDirectory emptyOutDir config.rootDirectory
      config.serverBuildDirectory then env.cleanOutcome else Except.ok ()) with
  | error e =>
    have htr : (buildRun emptyOutDir config env fuel).1 =
        (if shouldCleanServerBuildDirectory emptyOutDir config.rootDirectory
          config.serverBuildDirectory then [BuildOp.clean config.serverBuildDirectory]
          else []) := by
      simp only [buildRun, hco]
    rw [htr]
    exact ⟨_, [], [], by simp, hclean, hnilc, hnils⟩
  | ok u =>
    cases u
    cases hcl : env.clientOutcome with
    | error e =>
      have htr : (buildRun emptyOutDir config env fuel).1 =
          (if shouldCleanServerBuildDirectory emptyOutDir config.rootDirectory
            config.serverBuildDirectory then [BuildOp.clean config.serverBuildDirectory]
            else []) ++ [BuildOp.clientBuild] := by
        simp only [buildRun, hco, hcl]
      rw [htr]
      exact ⟨_, [BuildOp.clientBuild], [], by simp, hclean, hone, hnils⟩
    | ok u =>
      cases u
      cases hsb : getServerBundles config fuel with
      | none =>
        have htr : (buildRun emptyOutDir config env fuel).1 =
            (if shouldCleanServerBuildDirectory emptyOutDir config.rootDirectory
              config.serverBuildDirectory then [BuildOp.clean config.serverBuildDirectory]
              else []) ++ [BuildOp.clientBuild] := by
          simp only [buildRun, hco, hcl, hsb]
        rw [htr]
        exact ⟨_, [BuildOp.clientBuild], [], by simp, hclean, hone, hnils⟩
      | some res =>
        cases res with
        | error e =>
          have htr : (buildRun emptyOutDir config env fuel).1 =
              (if shouldCleanServerBuildDirectory emptyOutDir config.rootDirectory
                config.serverBuildDirectory then [BuildOp.clean config.serverBuildDirectory]
                else []) ++ [BuildOp.clientBuild] := by
            simp only [buildRun, hco, hcl, hsb]
          rw [htr]
          exact ⟨_, [BuildOp.clientBuild], [], by simp, hclean, hone, hnils⟩
        | ok bs =>
          have htr : (buildRun emptyOutDir config env fuel).1 =
              (if shouldCleanServerBuildDirectory emptyOutDir config.rootDirectory
                config.serverBuildDirectory then [BuildOp.clean config.serverBuildDirectory]
                else []) ++ [BuildOp.clientBuild] ++ bs.map BuildOp.serverBuild := by
            simp only [buildRun, hco, hcl, hsb]
          rw [htr]
          exact ⟨_, [BuildOp.clientBuild], bs.map BuildOp.serverBuild, by simp, hclean,
            hone, serverOps_map bs⟩

theorem buildRun_no_server_of_early_failure (emptyOutDir : Option Bool)
    (config : ResolvedRemixVitePluginConfig) (env : BuildEnv) (fuel : Nat)
    (h : (shouldCleanServerBuildDirectory emptyOutDir config.rootDirectory
            config.serverBuildDirectory = true ∧ isErr env.cleanOutcome = true) ∨
          isErr env.clientOutcome = true) :
    (buildRun emptyOutDir config env fuel).1.all (fun op => !(isServerOp op)) = true := by
  rcases h with ⟨hdc, hce⟩ | hcl
  · cases hcx : env.cleanOutcome with
    | ok u => rw [hcx] at hce; simp [isErr] at hce
    | error e =>
      have htr : buildRun emptyOutDir config env fuel =
          ([BuildOp.clean config.serverBuildDirectory], some (.error e)) := by
        unfold buildRun
        rw [hdc]
        simp only [if_true, hcx]
      rw [htr]
      rfl
  · cases hcc : env.clientOutcome with
    | ok u => rw [hcc] at hcl; simp [isErr] at hcl
    | error e =>
      cases hdc : shouldCleanServerBuildDirectory emptyOutDir config.rootDirectory
          config.serverBuildDirectory with
      | true =>
        cases hcx : env.cleanOutcome with
        | error e' =>
          have htr : buildRun emptyOutDir config env fuel =
              ([BuildOp.clean config.serverBuildDirectory], some (.error e')) := by
            unfold buildRun
            rw [hdc]
            simp only [if_true, hcx]
          rw [htr]
          rfl
        | ok u =>
          cases u
          have htr : buildRun emptyOutDir config env fuel =
              ([BuildOp.clean config.serverBuildDirectory, BuildOp.clientBuild],
                some (.error e)) := by
            unfold buildRun
            rw [hdc]
            simp only [if_true, hcx, hcc]
            rfl
          rw [htr]
          rfl
      | false =>
        have htr : buildRun emptyOutDir config env fuel =
            ([BuildOp.clientBuild], some (.error e)) := by
          unfold buildRun
          rw [hdc]
          simp only [if_false, hcc]
          rfl
        rw [htr]
        rfl

/-- C3: in every run the orchestrator's trace is guard operations, then
the client build, then server bundle builds, in that order (so the
guard and any deletion complete before the client build, and the client
build completes before any server bundle build starts); and when the
attempted guard cleanup fails, or the client build fails, no server
build operation is ever invoked. -/
theorem build_phase_gating (emptyOutDir : Option Bool)
    (config : ResolvedRemixVitePluginConfig) (env : BuildEnv) (fuel : Nat) :
    phaseOrdered (buildRun emptyOutDir config env fuel).1 ∧
      (((shouldCleanServerBuildDirectory emptyOutDir config.rootDirectory
            config.serverBuildDirectory = true ∧ isErr env.cleanOutcome = true) ∨
          isErr env.clientOutcome = true) →
        (buildRun emptyOutDir config env fuel).1.all
          (fun op => !(isServerOp op)) = true) :=
  ⟨buildRun_phaseOrdered emptyOutDir config env fuel,
    fun h => buildRun_no_server_of_early_failure emptyOutDir config env fuel h⟩

/-- C3 witness: the phase ordering evaluated on a successful run that
launches two server bundle builds, and the no-server-build gating
evaluated on a run whose client build fails. -/
theorem build_phase_gating_witness :
    phaseOrdered (buildRun (some false) cfgPerLeaf envAllOk 5).1 ∧
      (buildRun (some true) cfgPerLeaf envClientFail 5).1.all
        (fun op => !(isServerOp op)) = true :=
  ⟨(build_phase_gating (some false) cfgPerLeaf envAllOk 5).1,
    (build_phase_gating (some true) cfgPerLeaf envClientFail 5).2 (Or.inr rfl)⟩

/-- C1 counterexample: both per-leaf bundles fail with distinct errors,
yet the orchestrator's reported result carries only the first failing
bundle's error (`Promise.all` rejects with a single error; the second
bundle's distinct error is not surfaced). -/
theorem buildRun_first_error_only_cex :
    getServerBundles cfgPerLeaf 5 = some (.ok [bundleA, bundleB]) ∧
      envTwoFail.serverOutcome bundleA = .error "bundle a failed" ∧
      envTwoFail.serverOutcome bundleB = .error "bundle b failed" ∧
      (buildRun (some false) cfgPerLeaf envTwoFail 5).2 =
        some (.error "bundle a failed") ∧
      "bundle a failed" ≠ "bundle b failed" :=
  ⟨by rfl, by rfl, by rfl, by rfl, by decide⟩

/-- C1 amended: when the guard and the client build succeed and some
phase-3 bundle build fails, every bundle build is still launched and
the overall result is a failure, but it carries only the first failing
bundle's error rather than every failing bundle's distinct error. -/
theorem buildRun_reports_first_bundle_error (emptyOutDir : Option Bool)
    (config : ResolvedRemixVitePluginConfig) (env : BuildEnv) (fuel : Nat)
    (bundles : List ServerBuildConfig) (e : String)
    (hclean : env.cleanOutcome = .ok ())
    (hclient : env.clientOutcome = .ok ())
    (hbundles : getServerBundles config fuel = some (.ok bundles))
    (hfirst : firstError (bundles.map env.serverOutcome) = some e) :
    (buildRun emptyOutDir config env fuel).2 = some (.error e) ∧
      (buildRun emptyOutDir config env fuel).1 =
        (if shouldCleanServerBuildDirectory emptyOutDir config.rootDirectory
            config.serverBuildDirectory then [BuildOp.clean config.serverBuildDirectory]
          else []) ++ [BuildOp.clientBuild] ++ bundles.map BuildOp.serverBuild := by
  have hco : (if shouldCleanServerBuildDirectory emptyOutDir config.rootDirectory
      config.serverBuildDirectory then env.cleanOutcome else .ok ()) = Except.ok () := by
    rw [hclean]
    split <;> rfl
  have hpa : promiseAll (bundles.map env.serverOutcome) = Except.error e := by
    rw [promiseAll_eq_firstError, hfirst]
  unfold buildRun
  simp only [hco, hclient, hbundles, hpa]
  exact ⟨trivial, trivial⟩

/-- C1 amended witness: the first-error report evaluated on the
two-failing-bundles example. -/
theorem buildRun_reports_first_bundle_error_witness :
    (buildRun (some false) cfgPerLeaf envTwoFail 5).2 =
      some (.error "bundle a failed") :=
  (buildRun_reports_first_bundle_error (some false) cfgPerLeaf envTwoFail 5
    [bundleA, bundleB] "bundle a failed" rfl rfl (by rfl) (by rfl)).1

/-- C2 counterexample: a classifier returning `..` produces a bundle
key escaping the default server output directory, and the assigner
returns it normally (no configuration error is surfaced); likewise two
classifier results that normalize to the same joined path (`x` and
`y/../x`) are silently merged into one bundle rather than rejected. -/
theorem getServerBundles_no_validation_cex :
    getServerBundles cfgEscape 5 = some (.ok [⟨[("a", rtSolo)], "/proj/build"⟩]) ∧
      isWithinRoot "/proj/build/server" "/proj/build" = false ∧
      getServerBundles cfgCollide 5 =
        some (.ok [⟨[("root", rtRoot), ("a", rtA), ("b", rtB)],
          "/proj/build/server/x"⟩]) :=
  ⟨by rfl, by decide, by rfl⟩

theorem getServerBundlesGo_ok (routes : RouteManifest) (dir : String)
    (getDir : ServerBundleArgs → String) (fuel : Nat) :
    ∀ (leaves : List ConfigRoute) (acc : List (String × ServerBuildConfig)),
      (∀ r ∈ leaves, ∃ ms, getRouteMatches routes fuel r.id = some (.ok ms)) →
      ∃ bs, getServerBundlesGo routes dir getDir fuel leaves acc = some (.ok bs) := by
  intro leaves
  induction leaves with
  | nil => exact fun acc _ => ⟨acc, rfl⟩
  | cons r rest ih =>
    intro acc h
    obtain ⟨ms, hms⟩ := h r (List.mem_cons_self r rest)
    have hrest := fun x hx => h x (List.mem_cons_of_mem _ hx)
    simp only [getServerBundlesGo, hms]
    exact ih _ hrest

/-- C2 amended: the Bundle Assigner performs no validation of the
classifier's result: whenever every leaf's match-chain walk succeeds it
returns bundles normally for any classifier output — an escaping
relative directory is joined and used as the bundle key unchanged, and
keys normalizing to the same joined path are silently merged (see the
counterexample) — rather than surfacing a configuration error. -/
theorem getServerBundles_no_config_error (config : ResolvedRemixVitePluginConfig)
    (getDir : ServerBundleArgs → String) (fuel : Nat)
    (hb : config.serverBundleDirectory = some getDir)
    (hch : ∀ r ∈ getLeafRoutes config.routes,
        ∃ ms, getRouteMatches config.routes fuel r.id = some (.ok ms)) :
    ∃ bundles, getServerBundles config fuel = some (.ok bundles) := by
  obtain ⟨bs, hbs⟩ := getServerBundlesGo_ok config.routes config.serverBuildDirectory
    getDir fuel (getLeafRoutes config.routes) [] hch
  simp only [getServerBundles, hb, hbs]
  exact ⟨bs.map Prod.snd, rfl⟩

/-- C2 amended witness: the assigner returns normally on the escaping
classifier example. -/
theorem getServerBundles_no_config_error_witness :
    ∃ bundles, getServerBundles cfgEscape 5 = some (.ok bundles) :=
  getServerBundles_no_config_error cfgEscape (fun _ => "..") 5 rfl (by
    intro r hr
    rw [show getLeafRoutes cfgEscape.routes = [rtSolo] from rfl] at hr
    rw [List.mem_singleton.mp hr]
    exact ⟨[rtSolo], rfl⟩)

theorem visitList_run {m : RouteManifest} {id : String} {v : List ConfigRoute}
    (h : VisitList m id v) :
    ∀ fuel, v.length + 1 ≤ fuel → ∀ acc,
      getRouteMatchesAux m fuel id acc = some (.ok ((acc ++ v).reverse)) := by
  induction h with
  | last id r hid hlk hp =>
    intro fuel hfuel acc
    obtain ⟨f, rfl⟩ : ∃ f, fuel = f + 2 := ⟨fuel - 2, by simp at hfuel; omega⟩
    simp [getRouteMatchesAux, hid, hlk, hp]
  | cons id r p v hid hlk hp hpne tail ih =>
    intro fuel hfuel acc
    obtain ⟨f, rfl⟩ : ∃ f, fuel = f + 1 := ⟨fuel - 1, by simp at hfuel; omega⟩
    have hrec := ih f (by simp at hfuel ⊢; omega) (acc ++ [r])
    simp only [getRouteMatchesAux, if_neg hid, hlk, hp, Option.getD_some]
    rw [hrec]
    simp [List.append_assoc]

theorem visitList_shape {m : RouteManifest} {id : String} {v : List ConfigRoute}
    (h : VisitList m id v) :
    ∃ r rest, v = r :: rest ∧ lookupRoute m id = some r := by
  cases h with
  | last id r hid hlk hp => exact ⟨r, [], rfl, hlk⟩
  | cons id r p v hid hlk hp hpne tail => exact ⟨r, v, rfl, hlk⟩

theorem visitList_last_root {m : RouteManifest} {id : String} {v : List ConfigRoute}
    (h : VisitList m id v) :
    ∀ rl, v.getLast? = some rl → rl.parentId.getD "" = "" := by
  induction h with
  | last id r hid hlk hp =>
    intro rl hrl
    rw [List.getLast?_singleton, Option.some.injEq] at hrl
    rw [← hrl]
    exact hp
  | cons id r p v hid hlk hp hpne tail ih =>
    intro rl hrl
    obtain ⟨y, rest, hv, _⟩ := visitList_shape tail
    rw [hv] at hrl ih
    rw [List.getLast?_cons_cons] at hrl
    exact ih rl hrl

theorem visitList_unique {m : RouteManifest} {id : String} {v : List ConfigRoute}
    (h : VisitList m id v) :
    ∀ v', VisitList m id v' → v = v' := by
  induction h with
  | last id r hid hlk hp =>
    intro v' h'
    cases h' with
    | last id r' hid' hlk' hp' =>
      rw [hlk, Option.some.injEq] at hlk'
      rw [hlk']
    | cons id r' p v1 hid' hlk' hp' hpne' tail =>
      rw [hlk, Option.some.injEq] at hlk'
      subst hlk'
      rw [hp'] at hp
      simp only [Option.getD_some] at hp
      exact absurd hp hpne'
  | cons id r p v hid hlk hp hpne tail ih =>
    intro v' h'
    cases h' with
    | last id r' hid' hlk' hp' =>
      rw [hlk, Option.some.injEq] at hlk'
      rw [← hlk', hp] at hp'
      simp only [Option.getD_some] at hp'
      exact absurd hp' hpne
    | cons id r' p' v1 hid' hlk' hp' hpne' tail' =>
      rw [hlk, Option.some.injEq] at hlk'
      subst hlk'
      rw [hp, Option.some.injEq] at hp'
      subst hp'
      rw [ih v1 tail']

theorem visitList_mem_lookup {m : RouteManifest} {id : String} {v : List ConfigRoute}
    (h : VisitList m id v) :
    ∀ x ∈ v, ∃ k, k ≠ "" ∧ lookupRoute m k = some x := by
  induction h with
  | last id r hid hlk hp =>
    intro x hx
    rw [List.mem_singleton] at hx
    subst hx
    exact ⟨id, hid, hlk⟩
  | cons id r p v hid hlk hp hpne tail ih =>
    intro x hx
    rcases List.mem_cons.mp hx with hx | hx
    · subst hx
      exact ⟨id, hid, hlk⟩
    · exact ih x hx

theorem visitList_parent_mem {m : RouteManifest} {id : String} {v : List ConfigRoute}
    (h : VisitList m id v) :
    ∀ x ∈ v, ∀ p, x.parentId = some p → p ≠ "" →
      ∃ y ∈ v, lookupRoute m p = some y := by
  induction h with
  | last id r hid hlk hp =>
    intro x hx p hxp hpne
    rw [List.mem_singleton] at hx
    subst hx
    rw [hxp] at hp
    simp only [Option.getD_some] at hp
    exact absurd hp hpne
  | cons id r p0 v hid hlk hp0 hp0ne tail ih =>
    intro x hx p hxp hpne
    rcases List.mem_cons.mp hx with hx | hx
    · subst hx
      rw [hp0, Option.some.injEq] at hxp
      obtain ⟨y, rest, hv, hy⟩ := visitList_shape tail
      refine ⟨y, ?_, by rw [← hxp]; exact hy⟩
      rw [hv]
      exact List.mem_cons_of_mem _ (List.mem_cons_self _ _)
    · obtain ⟨y, hy, hly⟩ := ih x hx p hxp hpne
      exact ⟨y, List.mem_cons_of_mem _ hy, hly⟩

theorem visitList_chain {m : RouteManifest} (hids : ∀ e ∈ m, e.2.id = e.1)
    {id : String} {v : List ConfigRoute} (h : VisitList m id v) :
    List.Chain' (fun a b => a.parentId = some b.id) v := by
  induction h with
  | last id r hid hlk hp => exact List.chain'_singleton r
  | cons id r p v hid hlk hp hpne tail ih =>
    obtain ⟨y, rest, hv, hy⟩ := visitList_shape tail
    subst hv
    rw [List.chain'_cons]
    refine ⟨?_, ih⟩
    obtain ⟨e, he, hek, hev⟩ := lookupRoute_mem hy
    have hyid : y.id = p := by rw [← hev, hids e he, hek]
    rw [hp, hyid]

/-- C7: on a manifest whose entries carry their key as `id`, for a
route id of depth `n` and enough fuel, the walk succeeds and returns a
chain that is root-first (its head has a falsy parent link and each
element is the parent of the next), ends with the route for the given
id, and has length equal to the route's depth plus one. -/
theorem getRouteMatches_root_first (m : RouteManifest)
    (hids : ∀ e ∈ m, e.2.id = e.1) (id : String) (n fuel : Nat)
    (hd : RouteDepth m id n) (hfuel : n + 2 ≤ fuel) :
    ∃ chain, getRouteMatches m fuel id = some (.ok chain) ∧
      chain.length = n + 1 ∧
      chain.getLast? = lookupRoute m id ∧
      (∀ r0, chain.head? = some r0 → r0.parentId.getD "" = "") ∧
      List.Chain' (fun a b => b.parentId = some a.id) chain := by
  obtain ⟨v, hv, hlen⟩ := hd
  refine ⟨v.reverse, ?_, ?_, ?_, ?_, ?_⟩
  · have hrun := visitList_run hv fuel (by omega) []
    simpa [getRouteMatches] using hrun
  · simp [hlen]
  · rw [List.getLast?_reverse]
    obtain ⟨r, rest, hvr, hr⟩ := visitList_shape hv
    rw [hvr, hr]
    rfl
  · intro r0 h0
    rw [List.head?_reverse] at h0
    exact visitList_last_root hv r0 h0
  · rw [List.chain'_reverse]
    exact visitList_chain hids hv

/-- C7 witness: the root-first chain property evaluated at depth 1 on
the example manifest. -/
theorem getRouteMatches_root_first_witness :
    ∃ chain, getRouteMatches mabManifest 5 "a" = some (.ok chain) ∧
      chain.length = 1 + 1 ∧
      chain.getLast? = lookupRoute mabManifest "a" ∧
      (∀ r0, chain.head? = some r0 → r0.parentId.getD "" = "") ∧
      List.Chain' (fun a b => b.parentId = some a.id) chain :=
  getRouteMatches_root_first mabManifest (by decide) "a" 1 5
    ⟨[rtA, rtRoot],
      VisitList.cons "a" rtA "root" [rtRoot] (by decide) rfl rfl (by decide)
        (VisitList.last "root" rtRoot (by decide) rfl rfl),
      rfl⟩
    (by omega)

theorem hitsMissing_ne_empty {m : RouteManifest} {id : String} {k : Nat}
    (h : HitsMissing m id k) : id ≠ "" := by
  cases h with
  | here id hid hlk => exact hid
  | there id r p k hid hlk hp tail => exact hid

theorem hitsMissing_run {m : RouteManifest} {id : String} {k : Nat}
    (h : HitsMissing m id k) :
    ∀ fuel, k + 1 ≤ fuel → ∀ acc, ∃ e,
      getRouteMatchesAux m fuel id acc = some (.error e) := by
  induction h with
  | here id hid hlk =>
    intro fuel hfuel acc
    obtain ⟨f, rfl⟩ : ∃ f, fuel = f + 1 := ⟨fuel - 1, by omega⟩
    refine ⟨"Missing route for " ++ id, ?_⟩
    simp [getRouteMatchesAux, hid, hlk]
  | there id r p k hid hlk hp tail ih =>
    intro fuel hfuel acc
    obtain ⟨f, rfl⟩ : ∃ f, fuel = f + 1 := ⟨fuel - 1, by omega⟩
    obtain ⟨e, he⟩ := ih f (by omega) (acc ++ [r])
    refine ⟨e, ?_⟩
    simp only [getRouteMatchesAux, if_neg hid, hlk, hp, Option.getD_some]
    exact he

theorem run_error_hitsMissing {m : RouteManifest} :
    ∀ fuel id acc e, getRouteMatchesAux m fuel id acc = some (.error e) →
      ∃ k, k + 1 ≤ fuel ∧ HitsMissing m id k := by
  intro fuel
  induction fuel with
  | zero =>
    intro id acc e h
    simp [getRouteMatchesAux] at h
  | succ f ih =>
    intro id acc e h
    by_cases hid : id = ""
    · rw [hid] at h
      simp [getRouteMatchesAux] at h
    · cases hlk : lookupRoute m id with
      | none => exact ⟨0, by omega, HitsMissing.here id hid hlk⟩
      | some r =>
        simp only [getRouteMatchesAux, if_neg hid, hlk] at h
        obtain ⟨k, hk, hm⟩ := ih _ _ _ h
        have hne := hitsMissing_ne_empty hm
        cases hpid : r.parentId with
        | none =>
          rw [hpid] at hne
          simp at hne
        | some p =>
          rw [hpid] at hm
          simp only [Option.getD_some] at hm
          exact ⟨k + 1, by omega, HitsMissing.there id r p k hid hlk hpid hm⟩

theorem getServerBundlesGo_error (routes : RouteManifest) (dir : String)
    (getDir : ServerBundleArgs → String) (fuel : Nat) :
    ∀ (leaves : List ConfigRoute) (acc : List (String × ServerBuildConfig)),
      (∀ r ∈ leaves, getRouteMatches routes fuel r.id ≠ none) →
      (∃ r ∈ leaves, ∃ e, getRouteMatches routes fuel r.id = some (.error e)) →
      ∃ e, getServerBundlesGo routes dir getDir fuel leaves acc = some (.error e) := by
  intro leaves
  induction leaves with
  | nil =>
    intro acc _ h
    obtain ⟨r, hr, _⟩ := h
    exact absurd hr (List.not_mem_nil _)
  | cons r rest ih =>
    intro acc hsettle hex
    cases hw : getRouteMatches routes fuel r.id with
    | none => exact absurd hw (hsettle r (List.mem_cons_self r rest))
    | some res =>
      cases res with
      | error e =>
        refine ⟨e, ?_⟩
        simp only [getServerBundlesGo, hw]
      | ok ms =>
        obtain ⟨x, hx, e, he⟩ := hex
        rcases List.mem_cons.mp hx with hx | hx
        · subst hx
          rw [hw] at he
          simp at he
        · have hres := ih (addMatches acc (pathJoin dir (getDir ⟨r, ms⟩)) ms)
            (fun y hy => hsettle y (List.mem_cons_of_mem _ hy)) ⟨x, hx, e, he⟩
          simpa [getServerBundlesGo, hw] using hres

/-- C8: the walk fails with a `Missing route` error exactly when some
id encountered on the walk (including the starting id) is absent from
the manifest (within the fuel bound that models the unbounded loop);
such a failure propagates out of the Bundle Assigner when any leaf's
chain hits a missing route, and it is fatal to the build: with the
earlier phases succeeding, the orchestrator reports exactly this error
and invokes no server build operation. -/
theorem getRouteMatches_missing_iff_fatal (m : RouteManifest) (fuel : Nat) (id : String) :
    ((∃ e, getRouteMatches m fuel id = some (.error e)) ↔
      (∃ k, k + 1 ≤ fuel ∧ HitsMissing m id k)) ∧
    (∀ (config : ResolvedRemixVitePluginConfig) (getDir : ServerBundleArgs → String),
      config.routes = m → config.serverBundleDirectory = some getDir →
      (∀ r ∈ getLeafRoutes m, getRouteMatches m fuel r.id ≠ none) →
      (∃ r ∈ getLeafRoutes m, ∃ e, getRouteMatches m fuel r.id = some (.error e)) →
      ∃ e, getServerBundles config fuel = some (.error e)) ∧
    (∀ (emptyOutDir : Option Bool) (config : ResolvedRemixVitePluginConfig)
        (env : BuildEnv) (e : String),
      env.cleanOutcome = .ok () → env.clientOutcome = .ok () →
      getServerBundles config fuel = some (.error e) →
      (buildRun emptyOutDir config env fuel).2 = some (.error e) ∧
        (buildRun emptyOutDir config env fuel).1.all (fun op => !(isServerOp op)) = true) := by
  refine ⟨⟨?_, ?_⟩, ?_, ?_⟩
  · intro ⟨e, he⟩
    exact run_error_hitsMissing fuel id [] e he
  · intro ⟨k, hk, hm⟩
    obtain ⟨e, he⟩ := hitsMissing_run hm fuel hk []
    exact ⟨e, he⟩
  · intro config getDir hroutes hb hsettle hex
    obtain ⟨e, he⟩ := getServerBundlesGo_error m config.serverBuildDirectory getDir fuel
      (getLeafRoutes m) [] hsettle hex
    refine ⟨e, ?_⟩
    rw [show getServerBundlesGo m config.serverBuildDirectory getDir fuel
        (getLeafRoutes m) [] =
      getServerBundlesGo config.routes config.serverBuildDirectory getDir fuel
        (getLeafRoutes config.routes) [] by rw [hroutes]] at he
    simp only [getServerBundles, hb, he]
  · intro emptyOutDir config env e hclean hclient hsb
    have hco : (if shouldCleanServerBuildDirectory emptyOutDir config.rootDirectory
        config.serverBuildDirectory then env.cleanOutcome else .ok ()) = Except.ok () := by
      rw [hclean]
      split <;> rfl
    constructor
    · unfold buildRun
      simp only [hco, hclient, hsb]
    · unfold buildRun
      simp only [hco, hclient, hsb]
      cases hdc : shouldCleanServerBuildDirectory emptyOutDir config.rootDirectory
          config.serverBuildDirectory <;> simp [hdc, isServerOp]

/-- C8 witness: on the manifest whose single route references the
absent parent `ghost`, the walk fails with a missing-route error, and
the whole build over that manifest reports the error with no server
build invoked. -/
theorem getRouteMatches_missing_iff_fatal_witness :
    (∃ e, getRouteMatches mGhost 5 "a" = some (.error e)) ∧
      (buildRun (some false) cfgGhost envAllOk 5).2 =
        some (.error "Missing route for ghost") ∧
      (buildRun (some false) cfgGhost envAllOk 5).1.all
        (fun op => !(isServerOp op)) = true := by
  refine ⟨?_, ?_⟩
  · exact (getRouteMatches_missing_iff_fatal mGhost 5 "a").1.mpr
      ⟨1, by omega,
        HitsMissing.there "a" ⟨"a", some "ghost", "a.tsx"⟩ "ghost" 0 (by decide) rfl rfl
          (HitsMissing.here "ghost" (by decide) rfl)⟩
  · exact (getRouteMatches_missing_iff_fatal mGhost 5 "a").2.2 (some false) cfgGhost
      envAllOk "Missing route for ghost" rfl rfl (by rfl)

theorem dedupFirst_foldl_mem (l : List String) :
    ∀ (acc : List String) (x : String),
      x ∈ l.foldl (fun acc k => if acc.contains k then acc else acc ++ [k]) acc ↔
        x ∈ acc ∨ x ∈ l := by
  induction l with
  | nil =>
    intro acc x
    simp
  | cons a l ih =>
    intro acc x
    rw [List.foldl_cons]
    by_cases ha : acc.contains a = true
    · rw [if_pos ha, ih]
      have hmem := contains_iff_mem.mp ha
      simp only [List.mem_cons]
      constructor
      · rintro (h | h)
        · exact Or.inl h
        · exact Or.inr (Or.inr h)
      · rintro (h | h | h)
        · exact Or.inl h
        · exact Or.inl (h ▸ hmem)
        · exact Or.inr h
    · rw [if_neg ha, ih]
      simp only [List.mem_append, List.mem_singleton, List.mem_cons]
      tauto

theorem mem_dedupFirst {l : List String} {x : String} : x ∈ dedupFirst l ↔ x ∈ l := by
  rw [dedupFirst, dedupFirst_foldl_mem]
  simp

theorem dedupFirst_append_singleton (l : List String) (k : String) :
    dedupFirst (l ++ [k]) =
      if (dedupFirst l).contains k then dedupFirst l else dedupFirst l ++ [k] := by
  rw [dedupFirst, List.foldl_append]
  rfl

theorem entries_any_key (dd : List String) (G : String → ServerBuildConfig) (kp : String) :
    ((dd.map (fun k => (k, G k))).any (fun e => e.1 == kp)) = dd.contains kp := by
  rw [Bool.eq_iff_iff, List.any_eq_true, contains_iff_mem]
  constructor
  · rintro ⟨e, he, hbe⟩
    obtain ⟨k, hk, rfl⟩ := List.mem_map.mp he
    rw [beq_iff_eq] at hbe
    exact hbe ▸ hk
  · intro hk
    exact ⟨(kp, G kp), List.mem_map.mpr ⟨kp, hk, rfl⟩, beq_self_eq_true kp⟩

theorem specRoutes_append (dir : String) (getDir : ServerBundleArgs → String)
    (ps : List (ConfigRoute × List ConfigRoute)) (p : ConfigRoute × List ConfigRoute)
    (k : String) :
    ((ps ++ [p]).filter (fun x => bundleKeyOf dir getDir x == k)).foldl
        (fun rs x => mergeMatches rs x.2) [] =
      (if bundleKeyOf dir getDir p == k then
        mergeMatches ((ps.filter (fun x => bundleKeyOf dir getDir x == k)).foldl
          (fun rs x => mergeMatches rs x.2) []) p.2
      else (ps.filter (fun x => bundleKeyOf dir getDir x == k)).foldl
        (fun rs x => mergeMatches rs x.2) []) := by
  rw [List.filter_append, List.filter_singleton]
  by_cases h : (bundleKeyOf dir getDir p == k) = true
  · rw [if_pos h, h, Bool.cond_true, List.foldl_append]
    rfl
  · rw [if_neg h, eq_false_of_ne_true h, Bool.cond_false, List.append_nil]

theorem assignPairs_entries (dir : String) (getDir : ServerBundleArgs → String)
    (pairs : List (ConfigRoute × List ConfigRoute)) :
    assignPairs dir getDir pairs [] =
      (dedupFirst (pairs.map (bundleKeyOf dir getDir))).map
        (fun k => (k, ⟨(pairs.filter (fun x => bundleKeyOf dir getDir x == k)).foldl
            (fun rs x => mergeMatches rs x.2) [], k⟩)) := by
  induction pairs using List.reverseRecOn with
  | nil => rfl
  | append_singleton ps p ih =>
    have hstep : assignPairs dir getDir (ps ++ [p]) [] =
        addMatches (assignPairs dir getDir ps []) (bundleKeyOf dir getDir p) p.2 := by
      rw [assignPairs, List.foldl_append]
      rfl
    rw [hstep, ih, List.map_append, List.map_singleton, dedupFirst_append_singleton,
      addMatches, entries_any_key]
    by_cases hdd : (dedupFirst (ps.map (bundleKeyOf dir getDir))).contains
        (bundleKeyOf dir getDir p) = true
    · rw [if_pos hdd, if_pos hdd, List.map_map]
      refine List.map_eq_map_iff.mpr ?_
      intro k hk
      by_cases hkk : (k == bundleKeyOf dir getDir p) = true
      · have hk' : k = bundleKeyOf dir getDir p := beq_iff_eq.mp hkk
        subst hk'
        simp only [Function.comp_apply, beq_self_eq_true, if_pos]
        rw [specRoutes_append, if_pos (beq_self_eq_true _)]
      · have hpk : (bundleKeyOf dir getDir p == k) = false := by
          refine beq_eq_false_iff_ne.mpr ?_
          intro h
          exact hkk (beq_iff_eq.mpr h.symm)
        simp only [Function.comp_apply, hkk, Bool.false_eq_true, if_false]
        rw [specRoutes_append, if_neg (by rw [hpk]; exact Bool.false_ne_true)]
    · rw [if_neg hdd, if_neg hdd, List.map_append, List.map_singleton]
      have hnotmem : bundleKeyOf dir getDir p ∉ ps.map (bundleKeyOf dir getDir) := by
        intro hmem
        exact hdd (contains_iff_mem.mpr (mem_dedupFirst.mpr hmem))
      have hfilnil : ps.filter
          (fun x => bundleKeyOf dir getDir x == bundleKeyOf dir getDir p) = [] := by
        refine List.filter_eq_nil_iff.mpr ?_
        intro x hx hbx
        exact hnotmem (List.mem_map.mpr ⟨x, hx, beq_iff_eq.mp hbx⟩)
      congr 1
      · refine List.map_eq_map_iff.mpr ?_
        intro k hk
        have hne : k ≠ bundleKeyOf dir getDir p := by
          intro h
          exact hdd (contains_iff_mem.mpr (h ▸ hk))
        have hpk : (bundleKeyOf dir getDir p == k) = false := by
          refine beq_eq_false_iff_ne.mpr ?_
          intro h
          exact hne h.symm
        rw [specRoutes_append, if_neg (by rw [hpk]; exact Bool.false_ne_true)]
      · rw [specRoutes_append, if_pos (beq_self_eq_true _), hfilnil]
        rfl

theorem getServerBundlesGo_run (routes : RouteManifest) (dir : String)
    (getDir : ServerBundleArgs → String) (fuel : Nat) (ch : ConfigRoute → List ConfigRoute) :
    ∀ (leaves : List ConfigRoute) (acc : List (String × ServerBuildConfig)),
      (∀ r ∈ leaves, getRouteMatches routes fuel r.id = some (.ok (ch r))) →
      getServerBundlesGo routes dir getDir fuel leaves acc =
        some (.ok (assignPairs dir getDir (leaves.map (fun r => (r, ch r))) acc)) := by
  intro leaves
  induction leaves with
  | nil =>
    intro acc _
    rfl
  | cons r rest ih =>
    intro acc h
    have hr := h r (List.mem_cons_self r rest)
    simp only [getServerBundlesGo, hr, List.map_cons]
    rw [ih _ (fun x hx => h x (List.mem_cons_of_mem _ hx))]
    rfl

/-- C4: with a classification function supplied and every leaf's match
chain resolving, `getServerBundles` returns exactly the spec-side
regrouping of the leaf/chain pairs taken in manifest insertion order:
one bundle per distinct key `path.join(serverBuildDirectory, classifier
result)`, in key first-occurrence order (insertion-stable, not sorted),
each bundle holding its leaves' full match chains merged by route id. -/
theorem getServerBundles_grouping (config : ResolvedRemixVitePluginConfig)
    (getDir : ServerBundleArgs → String) (fuel : Nat)
    (ch : ConfigRoute → List ConfigRoute)
    (hb : config.serverBundleDirectory = some getDir)
    (hch : ∀ r ∈ getLeafRoutes config.routes,
        getRouteMatches config.routes fuel r.id = some (.ok (ch r))) :
    getServerBundles config fuel =
      some (.ok (specAssign config.serverBuildDirectory getDir
        ((getLeafRoutes config.routes).map (fun r => (r, ch r))))) := by
  have hrun := getServerBundlesGo_run config.routes config.serverBuildDirectory getDir fuel
    ch (getLeafRoutes config.routes) [] hch
  rw [assignPairs_entries] at hrun
  simp only [getServerBundles, hb, hrun]
  rw [List.map_map]
  rfl

/-- C4 witness: the grouping equality evaluated on the example
manifest with the per-leaf classifier. -/
theorem getServerBundles_grouping_witness :
    getServerBundles cfgPerLeaf 5 =
      some (.ok (specAssign cfgPerLeaf.serverBuildDirectory (fun args => args.route.id)
        ((getLeafRoutes cfgPerLeaf.routes).map
          (fun r => (r, chainList cfgPerLeaf.routes 5 r.id))))) :=
  getServerBundles_grouping cfgPerLeaf (fun args => args.route.id) 5
    (fun r => chainList cfgPerLeaf.routes 5 r.id) rfl (by
      intro r hr
      rw [show getLeafRoutes cfgPerLeaf.routes = [rtA, rtB] from rfl] at hr
      rcases List.mem_cons.mp hr with h | h
      · rw [h]
        rfl
      · rw [List.mem_singleton.mp h]
        rfl)

theorem lookupRoute_cons (e : String × ConfigRoute) (tl : List (String × ConfigRoute))
    (k : String) :
    lookupRoute (e :: tl) k =
      (if (e.1 == k) = true then some e.2 else lookupRoute tl k) := by
  unfold lookupRoute
  by_cases he : (e.1 == k) = true
  · rw [if_pos he]
    rw [show (e :: tl).find? (fun e => e.1 == k) =
      (bif e.1 == k then some e else tl.find? (fun e => e.1 == k)) from rfl]
    rw [he, Bool.cond_true]
    rfl
  · rw [if_neg he]
    rw [show (e :: tl).find? (fun e => e.1 == k) =
      (bif e.1 == k then some e else tl.find? (fun e => e.1 == k)) from rfl]
    rw [eq_false_of_ne_true he, Bool.cond_false]

theorem lookup_map_upd_self (obj : List (String × ConfigRoute)) (k : String) (v : ConfigRoute)
    (hany : obj.any (fun e => e.1 == k) = true) :
    lookupRoute (obj.map (fun e => if e.1 == k then (k, v) else e)) k = some v := by
  induction obj with
  | nil => simp at hany
  | cons e tl ih =>
    by_cases he : (e.1 == k) = true
    · simp only [List.map_cons, if_pos he]
      rw [lookupRoute_cons, if_pos (beq_self_eq_true k)]
    · simp only [List.map_cons, if_neg he]
      rw [lookupRoute_cons, if_neg he]
      have hany' : tl.any (fun e => e.1 == k) = true := by
        rw [List.any_cons] at hany
        rcases Bool.or_eq_true_iff.mp hany with h | h
        · exact absurd h he
        · exact h
      exact ih hany'

theorem lookup_map_upd_other (obj : List (String × ConfigRoute)) (k : String)
    (v : ConfigRoute) (k' : String) (hne : k' ≠ k) :
    lookupRoute (obj.map (fun e => if e.1 == k then (k, v) else e)) k' =
      lookupRoute obj k' := by
  induction obj with
  | nil => rfl
  | cons e tl ih =>
    by_cases he : (e.1 == k) = true
    · have hek : e.1 = k := beq_iff_eq.mp he
      have h1 : ¬(((k, v).1 == k') = true) := by
        simp only [beq_iff_eq]
        intro h
        exact hne h.symm
      have h2 : ¬((e.1 == k') = true) := by
        simp only [beq_iff_eq, hek]
        intro h
        exact hne h.symm
      simp only [List.map_cons, if_pos he]
      rw [lookupRoute_cons, if_neg h1, lookupRoute_cons, if_neg h2]
      exact ih
    · simp only [List.map_cons, if_neg he]
      rw [lookupRoute_cons, lookupRoute_cons]
      by_cases hk' : (e.1 == k') = true
      · rw [if_pos hk', if_pos hk']
      · rw [if_neg hk', if_neg hk']
        exact ih

theorem lookup_append_none (a b : List (String × ConfigRoute)) (k : String)
    (ha : lookupRoute a k = none) : lookupRoute (a ++ b) k = lookupRoute b k := by
  induction a with
  | nil => rfl
  | cons e tl ih =>
    rw [lookupRoute_cons] at ha
    by_cases he : (e.1 == k) = true
    · rw [if_pos he] at ha
      simp at ha
    · rw [if_neg he] at ha
      rw [List.cons_append, lookupRoute_cons, if_neg he]
      exact ih ha

theorem lookup_append_some (a b : List (String × ConfigRoute)) (k : String)
    (r : ConfigRoute) (ha : lookupRoute a k = some r) :
    lookupRoute (a ++ b) k = some r := by
  induction a with
  | nil => simp [lookupRoute] at ha
  | cons e tl ih =>
    rw [lookupRoute_cons] at ha
    by_cases he : (e.1 == k) = true
    · rw [if_pos he] at ha
      rw [List.cons_append, lookupRoute_cons, if_pos he]
      exact ha
    · rw [if_neg he] at ha
      rw [List.cons_append, lookupRoute_cons, if_neg he]
      exact ih ha

theorem any_eq_false_lookup_none (obj : List (String × ConfigRoute)) (k : String)
    (h : obj.any (fun e => e.1 == k) = false) : lookupRoute obj k = none := by
  have hf : List.find? (fun e => e.1 == k) obj = none := by
    rw [List.find?_eq_none]
    intro x hx
    rw [List.any_eq_false] at h
    simpa using h x hx
  unfold lookupRoute
  rw [hf]
  rfl

theorem lookup_objInsert (obj : List (String × ConfigRoute)) (k : String)
    (v : ConfigRoute) (k' : String) :
    lookupRoute (objInsert obj k v) k' =
      (if k' = k then some v else lookupRoute obj k') := by
  unfold objInsert
  by_cases hany : obj.any (fun e => e.1 == k) = true
  · rw [if_pos hany]
    by_cases hk : k' = k
    · rw [if_pos hk, hk]
      exact lookup_map_upd_self obj k v hany
    · rw [if_neg hk]
      exact lookup_map_upd_other obj k v k' hk
  · rw [if_neg hany]
    have hnone := any_eq_false_lookup_none obj k (eq_false_of_ne_true hany)
    by_cases hk : k' = k
    · rw [if_pos hk, hk, lookup_append_none _ _ _ hnone, lookupRoute_cons,
        if_pos (beq_self_eq_true k)]
    · rw [if_neg hk]
      cases hlo : lookupRoute obj k' with
      | some r => exact lookup_append_some _ _ _ _ hlo
      | none =>
        rw [lookup_append_none _ _ _ hlo, lookupRoute_cons,
          if_neg (by simp only [beq_iff_eq]; intro h; exact hk h.symm)]
        rfl

theorem mergeMatches_sub {m : RouteManifest} (ms : List ConfigRoute)
    (hms : ∀ x ∈ ms, lookupRoute m x.id = some x) :
    ∀ rs, (∀ k v', lookupRoute rs k = some v' → lookupRoute m k = some v') →
      ∀ k v', lookupRoute (mergeMatches rs ms) k = some v' →
        lookupRoute m k = some v' := by
  induction ms with
  | nil =>
    intro rs hsub k v' h
    exact hsub k v' h
  | cons x ms ih =>
    intro rs hsub k v' h
    refine ih (fun y hy => hms y (List.mem_cons_of_mem _ hy)) (objInsert rs x.id x)
      ?_ k v' h
    intro k0 v0 h0
    rw [lookup_objInsert] at h0
    by_cases hk0 : k0 = x.id
    · rw [if_pos hk0] at h0
      rw [Option.some.injEq] at h0
      rw [hk0, ← h0]
      exact hms x (List.mem_cons_self _ _)
    · rw [if_neg hk0] at h0
      exact hsub k0 v0 h0

theorem mergeMatches_presence_old (ms : List ConfigRoute) :
    ∀ rs (k : String), (lookupRoute rs k).isSome = true →
      (lookupRoute (mergeMatches rs ms) k).isSome = true := by
  induction ms with
  | nil =>
    intro rs k h
    exact h
  | cons x ms ih =>
    intro rs k h
    refine ih (objInsert rs x.id x) k ?_
    rw [lookup_objInsert]
    by_cases hk : k = x.id
    · rw [if_pos hk]
      rfl
    · rw [if_neg hk]
      exact h

theorem mergeMatches_presence_mem (ms : List ConfigRoute) :
    ∀ rs (x : ConfigRoute), x ∈ ms →
      (lookupRoute (mergeMatches rs ms) x.id).isSome = true := by
  induction ms with
  | nil =>
    intro rs x hx
    exact absurd hx (List.not_mem_nil _)
  | cons y ms ih =>
    intro rs x hx
    rcases List.mem_cons.mp hx with hx | hx
    · refine mergeMatches_presence_old ms (objInsert rs y.id y) x.id ?_
      rw [lookup_objInsert, hx, if_pos rfl]
      rfl
    · exact ih (objInsert rs y.id y) x hx

theorem pairsFold_sub {m : RouteManifest} (pairs : List (ConfigRoute × List ConfigRoute))
    (hpairs : ∀ q ∈ pairs, ∀ x ∈ q.2, lookupRoute m x.id = some x) :
    ∀ rs, (∀ k v', lookupRoute rs k = some v' → lookupRoute m k = some v') →
      ∀ k v', lookupRoute (pairs.foldl (fun rs q => mergeMatches rs q.2) rs) k = some v' →
        lookupRoute m k = some v' := by
  induction pairs with
  | nil =>
    intro rs hsub k v' h
    exact hsub k v' h
  | cons q pairs ih =>
    intro rs hsub k v' h
    refine ih (fun y hy => hpairs y (List.mem_cons_of_mem _ hy)) (mergeMatches rs q.2)
      ?_ k v' h
    exact mergeMatches_sub q.2 (hpairs q (List.mem_cons_self _ _)) rs hsub

theorem pairsFold_presence_old (pairs : List (ConfigRoute × List ConfigRoute)) :
    ∀ rs (k : String), (lookupRoute rs k).isSome = true →
      (lookupRoute (pairs.foldl (fun rs q => mergeMatches rs q.2) rs) k).isSome = true := by
  induction pairs with
  | nil =>
    intro rs k h
    exact h
  | cons q pairs ih =>
    intro rs k h
    exact ih _ k (mergeMatches_presence_old q.2 rs k h)

theorem pairsFold_presence (pairs : List (ConfigRoute × List ConfigRoute)) :
    ∀ rs (q : ConfigRoute × List ConfigRoute) (x : ConfigRoute), q ∈ pairs → x ∈ q.2 →
      (lookupRoute (pairs.foldl (fun rs q => mergeMatches rs q.2) rs) x.id).isSome = true := by
  induction pairs with
  | nil =>
    intro rs q x hq _
    exact absurd hq (List.not_mem_nil _)
  | cons q0 pairs ih =>
    intro rs q x hq hx
    rcases List.mem_cons.mp hq with hq | hq
    · subst hq
      exact pairsFold_presence_old pairs _ x.id (mergeMatches_presence_mem q.2 rs x hx)
    · exact ih (mergeMatches rs q0.2) q x hq hx

theorem routeDepth_unique {m : RouteManifest} {id : String} {n n' : Nat}
    (h : RouteDepth m id n) (h' : RouteDepth m id n') : n = n' := by
  obtain ⟨v, hv, hlen⟩ := h
  obtain ⟨v', hv', hlen'⟩ := h'
  have := visitList_unique hv v' hv'
  subst this
  omega

theorem visitList_mem_lookup_id {m : RouteManifest} (hids : ∀ e ∈ m, e.2.id = e.1)
    {id : String} {v : List ConfigRoute} (h : VisitList m id v) :
    ∀ x ∈ v, lookupRoute m x.id = some x := by
  intro x hx
  obtain ⟨k, hk, hlk⟩ := visitList_mem_lookup h x hx
  obtain ⟨e, he, hek, hev⟩ := lookupRoute_mem hlk
  have hxid : x.id = k := by rw [← hev, hids e he, hek]
  rw [hxid]
  exact hlk

theorem exists_depth_bound {m : RouteManifest} :
    ∀ l : List (String × ConfigRoute), (∀ e ∈ l, ∃ n, RouteDepth m e.1 n) →
      ∃ N, ∀ e ∈ l, ∀ n, RouteDepth m e.1 n → n ≤ N := by
  intro l
  induction l with
  | nil =>
    intro _
    exact ⟨0, fun e he => absurd he (List.not_mem_nil _)⟩
  | cons e tl ih =>
    intro h
    obtain ⟨n0, hn0⟩ := h e (List.mem_cons_self _ _)
    obtain ⟨N, hN⟩ := ih (fun x hx => h x (List.mem_cons_of_mem _ hx))
    refine ⟨max n0 N, ?_⟩
    intro x hx n hn
    rcases List.mem_cons.mp hx with hx | hx
    · rw [hx] at hn
      rw [routeDepth_unique hn hn0]
      exact le_max_left _ _
    · exact le_trans (hN x hx n hn) (le_max_right _ _)

theorem child_depth {m : RouteManifest} (hnd : (m.map Prod.fst).Nodup)
    (hkeys : ∀ e ∈ m, e.1 ≠ "") {id : String} {r : ConfigRoute} {n : Nat}
    (hlk : lookupRoute m id = some r) (hd : RouteDepth m id n)
    {e : String × ConfigRoute} (he : e ∈ m) (hep : e.2.parentId = some id) :
    RouteDepth m e.1 (n + 1) := by
  obtain ⟨v, hv, hlen⟩ := hd
  have hidne : id ≠ "" := by
    obtain ⟨e', he', hek', _⟩ := lookupRoute_mem hlk
    rw [← hek']
    exact hkeys e' he'
  refine ⟨e.2 :: v, ?_, by simp [hlen]⟩
  exact VisitList.cons e.1 e.2 id v (hkeys e he) (mem_lookupRoute hnd he) hep hidne hv

theorem leaf_case {m : RouteManifest} (hids : ∀ e ∈ m, e.2.id = e.1)
    {id : String} {r : ConfigRoute} {n : Nat}
    (hlk : lookupRoute m id = some r) (hd : RouteDepth m id n)
    (hnochild : ∀ e ∈ m, e.2.parentId ≠ some id) :
    ∃ leaf ∈ getLeafRoutes m, ∃ v, VisitList m leaf.id v ∧ r ∈ v := by
  obtain ⟨v, hv, _⟩ := hd
  obtain ⟨e, he, hek, hev⟩ := lookupRoute_mem hlk
  have hrid : r.id = id := by rw [← hev, hids e he, hek]
  have hleaf : r ∈ getLeafRoutes m := by
    unfold getLeafRoutes
    refine List.mem_map.mpr ⟨e, ?_, hev⟩
    rw [List.mem_filter]
    refine ⟨he, ?_⟩
    have hcf : (m.filterMap (fun e => e.2.parentId)).contains e.1 = false := by
      refine eq_false_of_ne_true ?_
      intro hc
      obtain ⟨e2, he2, hp2⟩ := contains_parentIds.mp hc
      rw [hek] at hp2
      exact hnochild e2 he2 hp2
    rw [hcf]
    rfl
  refine ⟨r, hleaf, v, ?_, ?_⟩
  · rw [hrid]
    exact hv
  · obtain ⟨r0, rest, hvr, hr0⟩ := visitList_shape hv
    rw [hlk, Option.some.injEq] at hr0
    rw [hvr, hr0]
    exact List.mem_cons_self _ _

theorem cover_by_leaf {m : RouteManifest} (hnd : (m.map Prod.fst).Nodup)
    (hids : ∀ e ∈ m, e.2.id = e.1) (hkeys : ∀ e ∈ m, e.1 ≠ "")
    (N : Nat) (hN : ∀ e ∈ m, ∀ nd, RouteDepth m e.1 nd → nd ≤ N) :
    ∀ (gas : Nat) (id : String) (r : ConfigRoute) (n : Nat),
      lookupRoute m id = some r → RouteDepth m id n → N - n ≤ gas →
      ∃ leaf ∈ getLeafRoutes m, ∃ v, VisitList m leaf.id v ∧ r ∈ v := by
  intro gas
  induction gas with
  | zero =>
    intro id r n hlk hd hgas
    by_cases hchild : ∃ e ∈ m, e.2.parentId = some id
    · obtain ⟨e, he, hep⟩ := hchild
      have hd' := child_depth hnd hkeys hlk hd he hep
      have hb := hN e he (n + 1) hd'
      omega
    · push_neg at hchild
      exact leaf_case hids hlk hd hchild
  | succ gas ih =>
    intro id r n hlk hd hgas
    by_cases hchild : ∃ e ∈ m, e.2.parentId = some id
    · obtain ⟨e, he, hep⟩ := hchild
      have hd' := child_depth hnd hkeys hlk hd he hep
      obtain ⟨re, hre⟩ : ∃ re, lookupRoute m e.1 = some re :=
        ⟨e.2, mem_lookupRoute hnd he⟩
      obtain ⟨leaf, hleaf, v, hv, hmem⟩ := ih e.1 re (n + 1) hre hd' (by omega)
      refine ⟨leaf, hleaf, v, hv, ?_⟩
      -- r is the parent of e.2 on the same walk
      have hre2 : re = e.2 := by
        have := mem_lookupRoute hnd he
        rw [this, Option.some.injEq] at hre
        exact hre.symm
      -- e.2 ∈ v, e.2.parentId = some id, id ≠ ""
      have hidne : id ≠ "" := by
        obtain ⟨e', he', hek', _⟩ := lookupRoute_mem hlk
        rw [← hek']
        exact hkeys e' he'
      have hpmem := visitList_parent_mem hv e.2 (by rw [← hre2]; exact hmem) id hep hidne
      obtain ⟨y, hy, hly⟩ := hpmem
      rw [hlk, Option.some.injEq] at hly
      rw [← hly] at hy
      exact hy
    · push_neg at hchild
      exact leaf_case hids hlk hd hchild

theorem dedupFirst_foldl_absorb :
    ∀ (rest acc : List String), (∀ x ∈ rest, acc.contains x = true) →
      rest.foldl (fun acc k => if acc.contains k then acc else acc ++ [k]) acc = acc := by
  intro rest
  induction rest with
  | nil =>
    intro acc _
    rfl
  | cons x rest ih =>
    intro acc h
    rw [List.foldl_cons, if_pos (h x (List.mem_cons_self _ _))]
    exact ih acc (fun y hy => h y (List.mem_cons_of_mem _ hy))

theorem dedupFirst_const (c : String) :
    ∀ l : List String, l ≠ [] → (∀ x ∈ l, x = c) → dedupFirst l = [c] := by
  intro l hne hall
  cases l with
  | nil => exact absurd rfl hne
  | cons a rest =>
    have ha : a = c := hall a (List.mem_cons_self _ _)
    rw [dedupFirst, List.foldl_cons]
    have hstep : (if ([] : List String).contains a then ([] : List String)
        else [] ++ [a]) = [a] := rfl
    rw [hstep, dedupFirst_foldl_absorb rest [a] ?_, ha]
    intro y hy
    rw [hall y (List.mem_cons_of_mem _ hy), ha]
    exact contains_iff_mem.mpr (List.mem_singleton.mpr rfl)

theorem leaf_mem_entry {m : RouteManifest} {r : ConfigRoute} (h : r ∈ getLeafRoutes m) :
    ∃ e ∈ m, e.2 = r := by
  unfold getLeafRoutes at h
  obtain ⟨e, he, hev⟩ := List.mem_map.mp h
  exact ⟨e, (List.mem_filter.mp he).1, hev⟩

theorem chainList_eq_of_visitList {m : RouteManifest} {id : String} {v : List ConfigRoute}
    (hv : VisitList m id v) {fuel : Nat} (hfuel : v.length + 1 ≤ fuel) :
    getRouteMatches m fuel id = some (.ok (chainList m fuel id)) ∧
      chainList m fuel id = v.reverse := by
  have hgm : getRouteMatches m fuel id = some (.ok v.reverse) := by
    have hrun := visitList_run hv fuel hfuel []
    simpa [getRouteMatches] using hrun
  constructor
  · rw [hgm]
    simp only [chainList, hgm]
  · simp only [chainList, hgm]

/-- C9: on a well-formed manifest (nonempty, as a route tree with a
root; unique non-empty keys carried as route ids; every route's walk
reaching a root within the modelled fuel), a classifier mapping every
leaf to the same relative directory `K` produces exactly one bundle,
keyed by `path.join(serverBuildDirectory, K)`, whose routes map equals
the full manifest (merging the same route id from multiple chains is an
idempotent no-op). -/
theorem getServerBundles_constant_classifier_single_bundle
    (config : ResolvedRemixVitePluginConfig) (getDir : ServerBundleArgs → String)
    (fuel : Nat) (K : String)
    (hb : config.serverBundleDirectory = some getDir)
    (hK : ∀ args, getDir args = K)
    (hne : config.routes ≠ [])
    (hnd : (config.routes.map Prod.fst).Nodup)
    (hids : ∀ e ∈ config.routes, e.2.id = e.1)
    (hkeys : ∀ e ∈ config.routes, e.1 ≠ "")
    (hdepth : ∀ e ∈ config.routes, ∃ n, RouteDepth config.routes e.1 n ∧ n + 2 ≤ fuel) :
    ∃ b, getServerBundles config fuel = some (.ok [b]) ∧
      b.serverBuildDirectory = pathJoin config.serverBuildDirectory K ∧
      ∀ id, lookupRoute b.routes id = lookupRoute config.routes id := by
  have hch : ∀ r ∈ getLeafRoutes config.routes,
      getRouteMatches config.routes fuel r.id =
        some (.ok (chainList config.routes fuel r.id)) := by
    intro r hr
    obtain ⟨e, he, hev⟩ := leaf_mem_entry hr
    obtain ⟨n, ⟨v, hv, hlen⟩, hfu⟩ := hdepth e he
    have hrid : r.id = e.1 := by rw [← hev, hids e he]
    rw [hrid]
    exact (chainList_eq_of_visitList hv (by omega)).1
  have hgroup := getServerBundles_grouping config getDir fuel
    (fun r => chainList config.routes fuel r.id) hb hch
  have hall : ∀ e ∈ config.routes, ∃ nd, RouteDepth config.routes e.1 nd :=
    fun e he => (hdepth e he).imp (fun n h => h.1)
  obtain ⟨N, hN⟩ := exists_depth_bound config.routes hall
  obtain ⟨e0, he0⟩ := List.exists_mem_of_ne_nil config.routes hne
  obtain ⟨n0, hd0, _⟩ := hdepth e0 he0
  have hlk0 : lookupRoute config.routes e0.1 = some e0.2 := mem_lookupRoute hnd he0
  obtain ⟨leaf0, hleaf0, _⟩ := cover_by_leaf hnd hids hkeys N hN (N - n0) e0.1 e0.2 n0
    hlk0 hd0 (le_refl _)
  have hlne : getLeafRoutes config.routes ≠ [] := List.ne_nil_of_mem hleaf0
  have hpairsne : (getLeafRoutes config.routes).map
      (fun r => (r, chainList config.routes fuel r.id)) ≠ [] := by
    intro hcontra
    exact hlne (List.map_eq_nil_iff.mp hcontra)
  have hkeyconst : ∀ x ∈ ((getLeafRoutes config.routes).map
        (fun r => (r, chainList config.routes fuel r.id))).map
        (bundleKeyOf config.serverBuildDirectory getDir),
      x = pathJoin config.serverBuildDirectory K := by
    intro x hx
    obtain ⟨q, _, rfl⟩ := List.mem_map.mp hx
    rw [bundleKeyOf, hK]
  have hdedup : dedupFirst (((getLeafRoutes config.routes).map
        (fun r => (r, chainList config.routes fuel r.id))).map
        (bundleKeyOf config.serverBuildDirectory getDir)) =
      [pathJoin config.serverBuildDirectory K] := by
    refine dedupFirst_const _ _ ?_ hkeyconst
    intro hcontra
    exact hpairsne (List.map_eq_nil_iff.mp hcontra)
  have hfilterall : ((getLeafRoutes config.routes).map
        (fun r => (r, chainList config.routes fuel r.id))).filter
        (fun x => bundleKeyOf config.serverBuildDirectory getDir x ==
          pathJoin config.serverBuildDirectory K) =
      (getLeafRoutes config.routes).map
        (fun r => (r, chainList config.routes fuel r.id)) := by
    refine List.filter_eq_self.mpr ?_
    intro q hq
    rw [beq_iff_eq, bundleKeyOf, hK]
  have hassign : specAssign config.serverBuildDirectory getDir
      ((getLeafRoutes config.routes).map
        (fun r => (r, chainList config.routes fuel r.id))) =
      [⟨((getLeafRoutes config.routes).map
          (fun r => (r, chainList config.routes fuel r.id))).foldl
          (fun rs q => mergeMatches rs q.2) [],
        pathJoin config.serverBuildDirectory K⟩] := by
    rw [specAssign, hdedup, List.map_singleton, hfilterall]
  refine ⟨⟨((getLeafRoutes config.routes).map
      (fun r => (r, chainList config.routes fuel r.id))).foldl
      (fun rs q => mergeMatches rs q.2) [],
    pathJoin config.serverBuildDirectory K⟩, ?_, rfl, ?_⟩
  · rw [hgroup, hassign]
  · have hpairs : ∀ q ∈ (getLeafRoutes config.routes).map
        (fun r => (r, chainList config.routes fuel r.id)),
        ∀ x ∈ q.2, lookupRoute config.routes x.id = some x := by
      intro q hq x hx
      obtain ⟨r, hr, rfl⟩ := List.mem_map.mp hq
      obtain ⟨e, he, hev⟩ := leaf_mem_entry hr
      obtain ⟨n, ⟨v, hv, hlen⟩, hfu⟩ := hdepth e he
      have hrid : r.id = e.1 := by rw [← hev, hids e he]
      have hcl : chainList config.routes fuel r.id = v.reverse := by
        rw [hrid]
        exact (chainList_eq_of_visitList hv (by omega)).2
      rw [hcl, List.mem_reverse] at hx
      exact visitList_mem_lookup_id hids hv x hx
    have hsub := pairsFold_sub ((getLeafRoutes config.routes).map
        (fun r => (r, chainList config.routes fuel r.id))) hpairs []
      (fun k v' h => by simp [lookupRoute] at h)
    intro id
    cases hml : lookupRoute config.routes id with
    | none =>
      cases hbr : lookupRoute (((getLeafRoutes config.routes).map
          (fun r => (r, chainList config.routes fuel r.id))).foldl
          (fun rs q => mergeMatches rs q.2) []) id with
      | none => rfl
      | some w =>
        have hcontra := hsub id w hbr
        rw [hml] at hcontra
        exact Option.noConfusion hcontra
    | some rv =>
      have hrvid : rv.id = id := by
        obtain ⟨e', he', hek', hev'⟩ := lookupRoute_mem hml
        rw [← hev', hids e' he', hek']
      obtain ⟨n1, hd1⟩ : ∃ n1, RouteDepth config.routes id n1 := by
        obtain ⟨e', he', hek', _⟩ := lookupRoute_mem hml
        obtain ⟨nd, hnd1⟩ := hall e' he'
        exact ⟨nd, hek' ▸ hnd1⟩
      obtain ⟨leaf, hleaf, v, hv, hmem⟩ := cover_by_leaf hnd hids hkeys N hN (N - n1)
        id rv n1 hml hd1 (le_refl _)
      obtain ⟨e, he, hev⟩ := leaf_mem_entry hleaf
      obtain ⟨n, ⟨v', hv', hlen'⟩, hfu⟩ := hdepth e he
      have hlid : leaf.id = e.1 := by rw [← hev, hids e he]
      have hveq : v = v' := by
        rw [hlid] at hv
        exact visitList_unique hv v' hv'
      have hcl : chainList config.routes fuel leaf.id = v'.reverse := by
        rw [hlid]
        exact (chainList_eq_of_visitList hv' (by omega)).2
      have hq : (leaf, chainList config.routes fuel leaf.id) ∈
          (getLeafRoutes config.routes).map
            (fun r => (r, chainList config.routes fuel r.id)) :=
        List.mem_map.mpr ⟨leaf, hleaf, rfl⟩
      have hxin : rv ∈ (leaf, chainList config.routes fuel leaf.id).2 := by
        rw [show (leaf, chainList config.routes fuel leaf.id).2 =
          chainList config.routes fuel leaf.id from rfl, hcl, List.mem_reverse, ← hveq]
        exact hmem
      have hsome := pairsFold_presence ((getLeafRoutes config.routes).map
          (fun r => (r, chainList config.routes fuel r.id))) [] _ rv hq hxin
      rw [hrvid] at hsome
      obtain ⟨w, hw⟩ := Option.isSome_iff_exists.mp hsome
      have hmw := hsub id w hw
      rw [hml, Option.some.injEq] at hmw
      rw [hw, hmw]

/-- C9 witness: the constant-classifier single-bundle property
evaluated on the example manifest with classifier result `shared`
(the spec's example scenario). -/
theorem getServerBundles_constant_classifier_single_bundle_witness :
    ∃ b, getServerBundles cfgShared 5 = some (.ok [b]) ∧
      b.serverBuildDirectory = pathJoin cfgShared.serverBuildDirectory "shared" ∧
      ∀ id, lookupRoute b.routes id = lookupRoute cfgShared.routes id :=
  getServerBundles_constant_classifier_single_bundle cfgShared (fun _ => "shared") 5
    "shared" rfl (fun _ => rfl) (by decide) (by decide) (by decide) (by decide)
    (by
      intro e he
      rw [show cfgShared.routes = [("root", rtRoot), ("a", rtA), ("b", rtB)] from rfl] at he
      rcases List.mem_cons.mp he with h | he
      · subst h
        exact ⟨0, ⟨[rtRoot], VisitList.last "root" rtRoot (by decide) rfl rfl, rfl⟩,
          by omega⟩
      · rcases List.mem_cons.mp he with h | he
        · subst h
          exact ⟨1, ⟨[rtA, rtRoot],
            VisitList.cons "a" rtA "root" [rtRoot] (by decide) rfl rfl (by decide)
              (VisitList.last "root" rtRoot (by decide) rfl rfl), rfl⟩, by omega⟩
        · rw [List.mem_singleton] at he
          subst he
          exact ⟨1, ⟨[rtB, rtRoot],
            VisitList.cons "b" rtB "root" [rtRoot] (by decide) rfl rfl (by decide)
              (VisitList.last "root" rtRoot (by decide) rfl rfl), rfl⟩, by omega⟩)
